import Mathlib

/-!
Verification development for the MapIcons PNG-to-SVG conversion pipeline.

The definitions below are a shallow embedding of the pixel-level analysis
code of the repository, chiefly the function `extractAndTrim` of
`png_to_svg_staging/png_to_svg.js` (its second, "FIXED" revision), the
placement arithmetic of `convertLogo`, the batch loop `processAllLogos`,
and the temporary-file handling of `traceBuffer`.

Conventions of the embedding:
* 8-bit channel values are natural numbers (the source reads them from a
  `Uint8Array`, so they are already exact integers 0..255).
* `Math.round(x)` on a non-negative quotient `num/den` is
  `(2*num + den) / (2*den)` in natural-number division; on a possibly
  negative half-integer it is `Int.fdiv (n + 1) 2` for the doubled value
  `n` (JavaScript rounds halves toward positive infinity).
* the source compares `Math.sqrt(d2) > 45` for an integer `d2`; since
  square roots are monotone, 45*45 = 2025 and both are exactly
  representable, this is equivalent to `2025 < d2`, which is how the
  comparison is embedded.
* the source compares `count > (data.length / 4) * 0.1`; for an integer
  `count` and pixel total `N` this is equivalent to `10 * count > N`
  (the floating rounding of `N * 0.1` never moves an integer across the
  threshold), which is how the comparison is embedded.
* luma `0.2126*R + 0.7152*G + 0.0722*B` is embedded scaled by 10000 as
  `2126*R + 7152*G + 722*B`, compared against thresholds scaled alike.
-/

set_option maxRecDepth 100000

namespace MapIcons

/-- One RGBA pixel as decoded by `sharp(...).ensureAlpha().raw()`. -/
structure Pixel where
  r : ℕ
  g : ℕ
  b : ℕ
  a : ℕ
deriving DecidableEq, Repr

instance : Inhabited Pixel := ⟨⟨0, 0, 0, 0⟩⟩

/-- An RGB colour (the background / fill colours of the analysis). -/
structure RGB where
  r : ℕ
  g : ℕ
  b : ℕ
deriving DecidableEq, Repr

instance : Inhabited RGB := ⟨⟨0, 0, 0⟩⟩

/-- The raster handed to the analysis loop: `info.width`, `info.height`
and the row-major pixel buffer `data` (4 channels per pixel). -/
structure Image where
  width : ℕ
  height : ℕ
  pixels : List Pixel
deriving DecidableEq, Repr

/-- `Math.round(num/den)` for natural `num` and positive `den`:
floor of `num/den + 1/2`. -/
def jsRoundDiv (num den : ℕ) : ℕ := (2 * num + den) / (2 * den)

/-- Squared Euclidean RGB distance between a pixel and a colour; the
source computes `Math.sqrt` of this and compares with 45, which is
equivalent to comparing this quantity with 2025. -/
def distSq (p : Pixel) (c : RGB) : ℤ :=
  let dr : ℤ := (p.r : ℤ) - (c.r : ℤ)
  let dg : ℤ := (p.g : ℤ) - (c.g : ℤ)
  let db : ℤ := (p.b : ℤ) - (c.b : ℤ)
  dr * dr + dg * dg + db * db

/-- Squared Euclidean RGB distance between two colours. -/
def rgbDistSq (c d : RGB) : ℤ :=
  let dr : ℤ := (c.r : ℤ) - (d.r : ℤ)
  let dg : ℤ := (c.g : ℤ) - (d.g : ℤ)
  let db : ℤ := (c.b : ℤ) - (d.b : ℤ)
  dr * dr + dg * dg + db * db

/-- Scaled perceptual luma: 10000 times `0.2126*R + 0.7152*G + 0.0722*B`
(ITU-R BT.709), kept exact over the naturals. -/
def luma10000 (c : RGB) : ℕ := 2126 * c.r + 7152 * c.g + 722 * c.b

/-- Two lowercase hex digits of a channel value, as produced by
`c.toString(16).padStart(2, '0')` for `c` below 256. -/
def hex2 (n : ℕ) : List Char :=
  [Nat.digitChar (n / 16 % 16), Nat.digitChar (n % 16)]

/-- The hex string `'#rrggbb'` built by the source from a colour. -/
def toHex (c : RGB) : String :=
  ⟨'#' :: (hex2 c.r ++ hex2 c.g ++ hex2 c.b)⟩

namespace Staging2

/-! Embedding of `extractAndTrim` from the second ("FIXED") revision in
`src/png_to_svg_staging/png_to_svg.js`, which analyses the trimmed,
resized raster. -/

/-- Total number of pixels, `data.length / 4` in the source. -/
def totalPixels (img : Image) : ℕ := img.pixels.length

/-- The transparency scan: the loop counting pixels with `data[i+3] < 50`. -/
def transparentCount (img : Image) : ℕ :=
  img.pixels.countP (fun p => p.a < 50)

/-- `isTransparent = transparentCount > (data.length / 4) * 0.1`,
embedded exactly as `10 * transparentCount > totalPixels`. -/
def isTransparent (img : Image) : Bool :=
  totalPixels img < 10 * transparentCount img

/-- Accumulator of the opaque-pixel averaging loop of CASE B. -/
structure RGBSum where
  r : ℕ
  g : ℕ
  b : ℕ
  n : ℕ
deriving DecidableEq, Repr

/-- The CASE B loop: sums of the channels of all pixels with
`data[i+3] > 100`, together with their count (`opaqueCount`). -/
def opaqueSums (img : Image) : RGBSum :=
  img.pixels.foldl
    (fun acc p =>
      if 100 < p.a then ⟨acc.r + p.r, acc.g + p.g, acc.b + p.b, acc.n + 1⟩ else acc)
    ⟨0, 0, 0, 0⟩

/-- CASE B background: the rounded mean colour of all pixels with alpha
above 100, falling back to white when no pixel is opaque. -/
def transparentBg (img : Image) : RGB :=
  let s := opaqueSums img
  if 0 < s.n then ⟨jsRoundDiv s.r s.n, jsRoundDiv s.g s.n, jsRoundDiv s.b s.n⟩
  else ⟨255, 255, 255⟩

/-- The four corner indices `[0, w-1, w*(h-1), w*h-1]` sampled by CASE A. -/
def cornerIndices (img : Image) : List ℕ :=
  [0, img.width - 1, img.width * (img.height - 1), img.width * img.height - 1]

/-- CASE A background: the rounded mean of the four corner pixels. -/
def cornerBg (img : Image) : RGB :=
  let s := (cornerIndices img).foldl
    (fun acc idx =>
      let p := img.pixels.getD idx default
      (⟨acc.r + p.r, acc.g + p.g, acc.b + p.b, acc.n + 1⟩ : RGBSum))
    ⟨0, 0, 0, 0⟩
  ⟨jsRoundDiv s.r s.n, jsRoundDiv s.g s.n, jsRoundDiv s.b s.n⟩

/-- The resolved background colour `(bgR, bgG, bgB)` of the model:
corner mean for opaque images, opaque-pixel mean for transparent ones. -/
def bgColor (img : Image) : RGB :=
  if isTransparent img then transparentBg img else cornerBg img

/-- The per-pixel decision of the STEP 2 masking loop: alpha below 100 is
background; otherwise the pixel is logo iff its distance from the
resolved background colour exceeds 45. -/
def isLogo (p : Pixel) (bg : RGB) : Bool :=
  if p.a < 100 then false else decide (2025 < distSq p bg)

/-- The binary mask produced by one pass of the STEP 2 loop, for a given
background colour (`true` encodes the black / foreground cells). -/
def maskWith (bg : RGB) (img : Image) : List Bool :=
  img.pixels.map (fun p => isLogo p bg)

/-- The foreground pixel list `fgPixels` collected by the same pass. -/
def fgWith (bg : RGB) (img : Image) : List Pixel :=
  img.pixels.filter (fun p => isLogo p bg)

/-- The mask of the analysed image under its resolved background. -/
def maskOf (img : Image) : List Bool := maskWith (bgColor img) img

/-- The foreground pixels of the analysed image. -/
def fgPixels (img : Image) : List Pixel := fgWith (bgColor img) img

/-- The fill colour for a given background: the rounded mean of the
foreground pixels, or the fixed default black when none exists. -/
def fillWith (bg : RGB) (img : Image) : RGB :=
  let l := fgWith bg img
  if 0 < l.length then
    ⟨jsRoundDiv (l.map Pixel.r).sum l.length,
     jsRoundDiv (l.map Pixel.g).sum l.length,
     jsRoundDiv (l.map Pixel.b).sum l.length⟩
  else ⟨0, 0, 0⟩

/-- `fillColor` of the analysed image ('#000000' when no foreground). -/
def fillColor (img : Image) : RGB := fillWith (bgColor img) img

/-- The fill colour as the hex string written into the SVG. -/
def fillColorHex (img : Image) : String := toHex (fillColor img)

/-- The contrast refinement: when both the fill luma and the background
luma exceed 150, the contrast colour is overwritten with `'#333333'`. -/
def refineContrast (fill cc : RGB) : RGB :=
  if 1500000 < luma10000 fill ∧ 1500000 < luma10000 cc then ⟨51, 51, 51⟩ else cc

/-- The exported pin contrast colour of the analysed image. -/
def contrastColor (img : Image) : RGB :=
  refineContrast (fillColor img) (bgColor img)

/-- The `method` label returned by `extractAndTrim`. -/
def methodLabel (img : Image) : String :=
  if isTransparent img then "Transparent Drill-Down" else "Box Drill-Down"

/-- The record returned by the analysis stage of `extractAndTrim`. -/
structure ExtractResult where
  mask : List Bool
  fill : RGB
  labelText : String
  contrast : RGB
deriving DecidableEq, Repr

/-- The (total) analysis stage of `extractAndTrim`: it always returns a
result, never throwing, whatever the pixel data. -/
def extractAnalysis (img : Image) : ExtractResult :=
  ⟨maskOf img, fillColor img, methodLabel img, contrastColor img⟩

end Staging2

namespace Staging2

/-- The opaque-averaging fold, related to a filter of the pixel list. -/
theorem foldl_opaque_eq (l : List Pixel) (acc : RGBSum) :
    l.foldl
      (fun acc p =>
        if 100 < p.a then
          (⟨acc.r + p.r, acc.g + p.g, acc.b + p.b, acc.n + 1⟩ : RGBSum)
        else acc) acc =
    ⟨acc.r + ((l.filter fun p => 100 < p.a).map Pixel.r).sum,
     acc.g + ((l.filter fun p => 100 < p.a).map Pixel.g).sum,
     acc.b + ((l.filter fun p => 100 < p.a).map Pixel.b).sum,
     acc.n + (l.filter fun p => 100 < p.a).length⟩ := by
  induction l generalizing acc with
  | nil => simp
  | cons p t ih =>
    by_cases hp : 100 < p.a
    · simp only [List.foldl_cons, if_pos hp, ih, List.filter_cons,
        decide_eq_true_eq, hp, if_pos, List.map_cons, List.sum_cons,
        List.length_cons]
      simp only [RGBSum.mk.injEq]
      omega
    · simp only [List.foldl_cons, if_neg hp, ih, List.filter_cons,
        decide_eq_true_eq, hp, if_neg, List.map_cons, List.sum_cons,
        List.length_cons]
      simp [hp]

/-- `opaqueSums` computes the channel sums and count of the pixels with
alpha above 100. -/
theorem opaqueSums_eq (img : Image) :
    opaqueSums img =
    ⟨((img.pixels.filter fun p => 100 < p.a).map Pixel.r).sum,
     ((img.pixels.filter fun p => 100 < p.a).map Pixel.g).sum,
     ((img.pixels.filter fun p => 100 < p.a).map Pixel.b).sum,
     (img.pixels.filter fun p => 100 < p.a).length⟩ := by
  unfold opaqueSums
  rw [foldl_opaque_eq]
  simp

end Staging2

/-- C1: the background classifier of `extractAndTrim` selects the
Transparent model exactly when the number of pixels with alpha below 50
exceeds 10% of the total pixel count; any image at least half of whose
pixels have alpha below 50 is therefore classified Transparent; and for
a Transparent image with at least one pixel of alpha above 100, the
resolved background RGB is the rounded mean of the channels of all
pixels with alpha above 100. -/
theorem c1_transparent_selection (img : Image) (h0 : 0 < Staging2.totalPixels img) :
    (Staging2.isTransparent img = true ↔
      Staging2.totalPixels img < 10 * Staging2.transparentCount img)
    ∧ (Staging2.totalPixels img ≤ 2 * Staging2.transparentCount img →
        Staging2.isTransparent img = true)
    ∧ (Staging2.isTransparent img = true →
        0 < (img.pixels.filter fun p => 100 < p.a).length →
        Staging2.bgColor img =
          ⟨jsRoundDiv ((img.pixels.filter fun p => 100 < p.a).map Pixel.r).sum
              (img.pixels.filter fun p => 100 < p.a).length,
           jsRoundDiv ((img.pixels.filter fun p => 100 < p.a).map Pixel.g).sum
              (img.pixels.filter fun p => 100 < p.a).length,
           jsRoundDiv ((img.pixels.filter fun p => 100 < p.a).map Pixel.b).sum
              (img.pixels.filter fun p => 100 < p.a).length⟩) := by
  refine ⟨by simp [Staging2.isTransparent], ?_, ?_⟩
  · intro h
    have hc : Staging2.transparentCount img ≤ Staging2.totalPixels img :=
      List.countP_le_length _
    simp only [Staging2.isTransparent, decide_eq_true_eq]
    omega
  · intro ht hop
    simp only [Staging2.bgColor, ht, if_pos, Staging2.transparentBg,
      Staging2.opaqueSums_eq]
    simp only [if_pos hop]

/-- C1 witness: a 2-pixel image, one fully transparent pixel and one
opaque pixel of colour (10, 20, 30); half its pixels are transparent, so
it is classified Transparent, and its background is the mean (10,20,30). -/
theorem c1_transparent_selection_witness :
    (0 < Staging2.totalPixels (Image.mk 2 1 [⟨0, 0, 0, 0⟩, ⟨10, 20, 30, 255⟩]))
    ∧ (Staging2.isTransparent (Image.mk 2 1 [⟨0, 0, 0, 0⟩, ⟨10, 20, 30, 255⟩]) = true)
    ∧ Staging2.bgColor (Image.mk 2 1 [⟨0, 0, 0, 0⟩, ⟨10, 20, 30, 255⟩]) = ⟨10, 20, 30⟩ := by
  have h := c1_transparent_selection (Image.mk 2 1 [⟨0, 0, 0, 0⟩, ⟨10, 20, 30, 255⟩])
    (by decide)
  refine ⟨by decide, h.2.1 (by decide), ?_⟩
  rw [h.2.2 (h.2.1 (by decide)) (by decide)]
  decide

/-- The background models named by the specification. The source code
only ever produces the first two: its non-transparent branch always
derives the background from the four corners ("Box Drill-Down"). -/
inductive BGModel where
  | transparent
  | opaqueCornerDominant
  | opaqueCenterDominant
deriving DecidableEq, Repr

namespace Staging2

/-- The classifier decision actually made by `extractAndTrim`: the
transparency test selects CASE B, every other image takes CASE A, the
corner-sampling branch. No other case exists in the source. -/
def classify (img : Image) : BGModel :=
  if isTransparent img then .transparent else .opaqueCornerDominant

end Staging2

/-- Modelled from the spec, for comparison with the code: the classifier
described by claim C2, which on non-transparent images samples a corner
pixel and the geometric centre pixel, counts the pixels within Euclidean
RGB distance 45 of the centre sample, and selects the centre-dominant
model when that count exceeds 40% of all pixels and the two samples
differ by more than 50 in colour distance. (`within 45` is embedded as
squared distance at most 2025, `differ by more than 50` as squared
distance above 2500, and `count > 40% of N` as `5 * count > 2 * N`.) -/
def classifySpecC2 (img : Image) : BGModel :=
  if Staging2.isTransparent img then .transparent
  else
    let corner := img.pixels.getD 0 default
    let center := img.pixels.getD ((img.height / 2) * img.width + img.width / 2) default
    let centerCount := img.pixels.countP
      (fun p => distSq p ⟨center.r, center.g, center.b⟩ ≤ 2025)
    if 2 * Staging2.totalPixels img < 5 * centerCount ∧
        2500 < rgbDistSq ⟨corner.r, corner.g, corner.b⟩ ⟨center.r, center.g, center.b⟩ then
      .opaqueCenterDominant
    else .opaqueCornerDominant

/-- A 3x3 fully opaque test image: white corners, a black plus-shaped
centre region of five pixels (a "box logo" in the sense of claim C2). -/
def c2Img : Image :=
  ⟨3, 3,
    [⟨255, 255, 255, 255⟩, ⟨0, 0, 0, 255⟩, ⟨255, 255, 255, 255⟩,
     ⟨0, 0, 0, 255⟩, ⟨0, 0, 0, 255⟩, ⟨0, 0, 0, 255⟩,
     ⟨255, 255, 255, 255⟩, ⟨0, 0, 0, 255⟩, ⟨255, 255, 255, 255⟩]⟩

/-- C2 counterexample: on `c2Img` the selection claimed by C2 would be
the centre-dominant model (5 of 9 pixels are within distance 45 of the
black centre sample, and the white corner sample differs from it by far
more than 50), but the code classifies it corner-dominant: the source's
non-transparent branch samples only the four corners and has no
centre-dominant case at all. -/
theorem c2_center_dominant_counterexample :
    classifySpecC2 c2Img = .opaqueCenterDominant
    ∧ Staging2.classify c2Img = .opaqueCornerDominant
    ∧ classifySpecC2 c2Img ≠ Staging2.classify c2Img := by
  refine ⟨by decide, by decide, by decide⟩

/-- C2 as amended: for every image not classified Transparent, the
classifier resolves the background as the rounded mean of the four
corner pixels and always selects the corner-dominant model; no centre
pixel is sampled and no centre-dominant selection exists in the code. -/
theorem c2_corner_dominant_amended (img : Image)
    (h : Staging2.isTransparent img = false) :
    Staging2.classify img = .opaqueCornerDominant
    ∧ Staging2.bgColor img = Staging2.cornerBg img := by
  constructor
  · simp [Staging2.classify, h]
  · simp [Staging2.bgColor, h]

/-- C2 amended witness: the opaque image `c2Img` is classified
corner-dominant with background the rounded corner mean, white. -/
theorem c2_corner_dominant_amended_witness :
    Staging2.isTransparent c2Img = false
    ∧ Staging2.classify c2Img = .opaqueCornerDominant
    ∧ Staging2.bgColor c2Img = ⟨255, 255, 255⟩ := by
  have h := c2_corner_dominant_amended c2Img (by decide)
  exact ⟨by decide, h.1, by rw [h.2]; decide⟩

namespace Staging2

/-- The mask is the pointwise image of the pixel buffer under `isLogo`. -/
theorem maskOf_getD (img : Image) (i : ℕ) (h : i < img.pixels.length) :
    (maskOf img).getD i false = isLogo (img.pixels.getD i default) (bgColor img) := by
  unfold maskOf maskWith
  rw [List.getD_eq_getElem _ _ (by simpa using h), List.getD_eq_getElem _ _ h,
    List.getElem_map]

end Staging2

/-- C3: for every pixel of the analysed image, the STEP 2 masking loop
classifies the pixel Background when its alpha is below 100, and
otherwise classifies it Foreground exactly when its Euclidean RGB
distance to the resolved background colour exceeds 45 (squared distance
above 2025); the binary mask has one cell per pixel, built in the same
pass, whose `true` cells are exactly the Foreground classifications. -/
theorem c3_mask_builder (img : Image) (i : ℕ) (h : i < Staging2.totalPixels img) :
    ((Staging2.maskOf img).getD i false = true ↔
      100 ≤ (img.pixels.getD i default).a ∧
      2025 < distSq (img.pixels.getD i default) (Staging2.bgColor img))
    ∧ ((img.pixels.getD i default).a < 100 →
        (Staging2.maskOf img).getD i false = false)
    ∧ (Staging2.maskOf img).length = Staging2.totalPixels img := by
  have hm := Staging2.maskOf_getD img i h
  refine ⟨?_, ?_, by simp [Staging2.maskOf, Staging2.maskWith, Staging2.totalPixels]⟩
  · rw [hm]
    unfold Staging2.isLogo
    by_cases ha : (img.pixels.getD i default).a < 100
    · rw [if_pos ha]
      simp only [Bool.false_eq_true, false_iff, not_and, not_lt]
      intro hcon
      omega
    · rw [if_neg ha]
      simp only [decide_eq_true_eq]
      omega
  · intro ha
    rw [hm]
    unfold Staging2.isLogo
    rw [if_pos ha]

/-- C3 witness: in the two-pixel image of the C1 witness (background
mean (10,20,30)), pixel 0 is transparent hence Background, and the mask
cell 0 is false accordingly; the mask has one cell per pixel. -/
theorem c3_mask_builder_witness :
    (0 < Staging2.totalPixels (Image.mk 2 1 [⟨0, 0, 0, 0⟩, ⟨10, 20, 30, 255⟩]))
    ∧ (Staging2.maskOf (Image.mk 2 1 [⟨0, 0, 0, 0⟩, ⟨10, 20, 30, 255⟩])).getD 0 false
        = false
    ∧ (Staging2.maskOf (Image.mk 2 1 [⟨0, 0, 0, 0⟩, ⟨10, 20, 30, 255⟩])).length = 2 := by
  have h := c3_mask_builder (Image.mk 2 1 [⟨0, 0, 0, 0⟩, ⟨10, 20, 30, 255⟩]) 0 (by decide)
  exact ⟨by decide, h.2.1 (by decide), h.2.2⟩

/-- Whether flat index `i` of a 64x64 raster lies in the closed disk of
radius 20 centred at the image centre (31.5, 31.5): with `x = i % 64`
and `y = i / 64`, membership is `(2x-63)^2 + (2y-63)^2 ≤ 1600`. -/
def inDisk64 (i : ℕ) : Bool :=
  let x : ℤ := (i % 64 : ℕ)
  let y : ℤ := (i / 64 : ℕ)
  decide ((2 * x - 63) * (2 * x - 63) + (2 * y - 63) * (2 * y - 63) ≤ 1600)

/-- The pixel at flat index `i` of the Scenario B input: opaque black
inside the disk, fully transparent black outside. -/
def diskPix (i : ℕ) : Pixel :=
  if inDisk64 i then ⟨0, 0, 0, 255⟩ else ⟨0, 0, 0, 0⟩

/-- The 64x64 input of Scenario B: alpha 0 everywhere except an opaque
black disk of radius 20 in the centre. -/
def diskImage : Image := ⟨64, 64, (List.range 4096).map diskPix⟩

/-- Splitting `range 4096` for chunk-wise evaluation. -/
theorem range4096_eq : List.range 4096 =
    List.range 3072 ++ (List.range 1024).map (fun x => 3072 + x) := by
  simpa using List.range_add 3072 1024

/-- Splitting `range 3072` for chunk-wise evaluation. -/
theorem range3072_eq : List.range 3072 =
    List.range 2048 ++ (List.range 1024).map (fun x => 2048 + x) := by
  simpa using List.range_add 2048 1024

/-- Splitting `range 2048` for chunk-wise evaluation. -/
theorem range2048_eq : List.range 2048 =
    List.range 1024 ++ (List.range 1024).map (fun x => 1024 + x) := by
  simpa using List.range_add 1024 1024

/-- 2832 of the 4096 pixels of the disk image (all those outside the
disk) have alpha below 50. -/
theorem diskImage_transparentCount :
    Staging2.transparentCount diskImage = 2832 := by
  show ((List.range 4096).map diskPix).countP (fun p => p.a < 50) = 2832
  rw [range4096_eq, range3072_eq, range2048_eq]
  simp only [List.map_append, List.countP_append, List.map_map]
  decide

/-- The number of pixels of the disk image is 4096. -/
theorem diskImage_totalPixels : Staging2.totalPixels diskImage = 4096 := by
  simp [Staging2.totalPixels, diskImage]

/-- The 28% transparent fraction is over the 10% bar, so the disk image
is classified Transparent. -/
theorem diskImage_isTransparent : Staging2.isTransparent diskImage = true := by
  unfold Staging2.isTransparent
  rw [diskImage_totalPixels, diskImage_transparentCount]
  decide

/-- The opaque-averaging loop over the disk image: 1264 opaque pixels,
all black. -/
theorem diskImage_opaqueSums : Staging2.opaqueSums diskImage = ⟨0, 0, 0, 1264⟩ := by
  rw [Staging2.opaqueSums_eq]
  show (⟨_, _, _, _⟩ : Staging2.RGBSum) = _
  have : diskImage.pixels = (List.range 4096).map diskPix := rfl
  rw [this, range4096_eq, range3072_eq, range2048_eq]
  simp only [List.map_append, List.filter_append, List.sum_append,
    List.length_append, List.map_map]
  decide

/-- The resolved background colour of the disk image is black. -/
theorem diskImage_bgColor : Staging2.bgColor diskImage = ⟨0, 0, 0⟩ := by
  unfold Staging2.bgColor
  rw [diskImage_isTransparent]
  unfold Staging2.transparentBg
  rw [diskImage_opaqueSums]
  decide

/-- No pixel of the disk image is farther than 45 from the black
background, so the foreground list of the masking pass is empty. -/
theorem diskImage_fgWith : Staging2.fgWith ⟨0, 0, 0⟩ diskImage = [] := by
  show ((List.range 4096).map diskPix).filter _ = []
  rw [range4096_eq, range3072_eq, range2048_eq]
  simp only [List.map_append, List.filter_append, List.map_map]
  decide

/-- Indexing the disk image's pixel buffer evaluates `diskPix`. -/
theorem diskImage_getD (i : ℕ) (h : i < 4096) :
    diskImage.pixels.getD i default = diskPix i := by
  show ((List.range 4096).map diskPix).getD i default = diskPix i
  rw [List.getD_eq_getElem _ _ (by simpa using h), List.getElem_map,
    List.getElem_range]

/-- C4 counterexample: on the Scenario B disk image the classifier does
select Transparent, but the mask's Foreground cells are not exactly the
disk pixels: the resolved background is the mean of the opaque pixels,
which is black, so the central disk pixel (flat index 2080, inside the
disk with alpha 255) is at distance 0 from the background and is
classified Background. -/
theorem c4_disk_counterexample :
    Staging2.isTransparent diskImage = true
    ∧ inDisk64 2080 = true
    ∧ (diskImage.pixels.getD 2080 default).a = 255
    ∧ (Staging2.maskOf diskImage).getD 2080 false = false := by
  refine ⟨diskImage_isTransparent, by decide, ?_, ?_⟩
  · rw [diskImage_getD 2080 (by omega)]
    decide
  · have hlen : 2080 < diskImage.pixels.length := by
      have := diskImage_totalPixels
      unfold Staging2.totalPixels at this
      omega
    rw [Staging2.maskOf_getD diskImage 2080 hlen, diskImage_getD 2080 (by omega),
      diskImage_bgColor]
    decide

/-- C4 as amended: on the Scenario B disk image the classifier selects
Transparent and the resolved background colour is black (the mean of the
opaque disk); consequently no pixel at all is classified Foreground
(every disk pixel is within distance 45 of the background), and the
extracted fill colour is exactly the fallback `'#000000'`. -/
theorem c4_disk_amended :
    Staging2.isTransparent diskImage = true
    ∧ Staging2.bgColor diskImage = ⟨0, 0, 0⟩
    ∧ Staging2.fgPixels diskImage = []
    ∧ Staging2.fillColor diskImage = ⟨0, 0, 0⟩
    ∧ Staging2.fillColorHex diskImage = "#000000" := by
  have hfg : Staging2.fgPixels diskImage = [] := by
    unfold Staging2.fgPixels
    rw [diskImage_bgColor]
    exact diskImage_fgWith
  have hfill : Staging2.fillColor diskImage = ⟨0, 0, 0⟩ := by
    unfold Staging2.fillColor
    rw [diskImage_bgColor]
    unfold Staging2.fillWith
    rw [diskImage_fgWith]
    decide
  refine ⟨diskImage_isTransparent, diskImage_bgColor, hfg, hfill, ?_⟩
  unfold Staging2.fillColorHex
  rw [hfill]
  decide

/-- C5: whenever the masking pass classifies zero pixels as Foreground,
the analysis does not fail: `fillColor` keeps its fixed initial value,
the black default `'#000000'`, and the (total) analysis stage still
returns a complete result for the logo, carrying that default fill. -/
theorem c5_empty_foreground_fallback (img : Image)
    (h : Staging2.fgPixels img = []) :
    Staging2.fillColor img = ⟨0, 0, 0⟩
    ∧ Staging2.fillColorHex img = "#000000"
    ∧ Staging2.extractAnalysis img =
        ⟨Staging2.maskOf img, ⟨0, 0, 0⟩, Staging2.methodLabel img,
         Staging2.contrastColor img⟩ := by
  have hfill : Staging2.fillColor img = ⟨0, 0, 0⟩ := by
    unfold Staging2.fillColor Staging2.fillWith
    unfold Staging2.fgPixels at h
    rw [h]
    decide
  refine ⟨hfill, ?_, ?_⟩
  · unfold Staging2.fillColorHex
    rw [hfill]
    decide
  · unfold Staging2.extractAnalysis
    rw [hfill]

/-- C5 witness: a uniform opaque white 2x2 image (Scenario D): its four
corner mean is white, every pixel is at distance 0 from it, so the
foreground is empty and the fill falls back to black. -/
theorem c5_empty_foreground_fallback_witness :
    Staging2.fgPixels (Image.mk 2 2 (List.replicate 4 ⟨255, 255, 255, 255⟩)) = []
    ∧ Staging2.fillColorHex (Image.mk 2 2 (List.replicate 4 ⟨255, 255, 255, 255⟩))
        = "#000000" := by
  have h := c5_empty_foreground_fallback
    (Image.mk 2 2 (List.replicate 4 ⟨255, 255, 255, 255⟩)) (by decide)
  exact ⟨by decide, h.2.1⟩

namespace Placement

/-! Embedding of the placement arithmetic of `convertLogo`:
`left = Math.round(HEAD_CENTER_X - width / 2)`,
`top = Math.round(HEAD_CENTER_Y - height / 2)`, composited at
`Math.max(0, left)` / `Math.max(0, top)` onto the 240-pixel canvas
(`PROCESS_CANVAS = 24 * 10`), with anchor (120, 90). -/

/-- `Math.round(n / 2)` for an integer `n`: JavaScript rounds halves
toward positive infinity, i.e. floor of `(n + 1) / 2`. -/
def jsRoundHalf (n : ℤ) : ℤ := (n + 1).fdiv 2

/-- `Math.round(anchor - size / 2)` written over the doubled value. -/
def rawOffset (anchor size : ℕ) : ℤ := jsRoundHalf (2 * (anchor : ℤ) - (size : ℤ))

/-- The composited offset `Math.max(0, Math.round(anchor - size / 2))`. -/
def clampedOffset (anchor size : ℕ) : ℤ := max 0 (rawOffset anchor size)

end Placement

/-- C6: the placement engine computes each top-left offset as
`round(anchor - size/2)` per axis and clamps it to be at least 0; with
the code's canvas side 240 and anchor (120, 90), for every target box of
width and height at most the canvas side, the clamped offset plus the
placed content size stays within the canvas on both axes. -/
theorem c6_placement_invariant (w h : ℕ) (hw : w ≤ 240) (hh : h ≤ 240) :
    0 ≤ Placement.clampedOffset 120 w
    ∧ 0 ≤ Placement.clampedOffset 90 h
    ∧ Placement.clampedOffset 120 w + (w : ℤ) ≤ 240
    ∧ Placement.clampedOffset 90 h + (h : ℤ) ≤ 240 := by
  have hx : ∀ s, s < 241 → Placement.clampedOffset 120 s + (s : ℤ) ≤ 240 := by decide
  have hy : ∀ s, s < 241 → Placement.clampedOffset 90 s + (s : ℤ) ≤ 240 := by decide
  exact ⟨le_max_left 0 _, le_max_left 0 _, hx w (by omega), hy h (by omega)⟩

/-- C6 witness: the largest mask the resize step can produce, 180 by
140, is placed at a non-negative offset and stays inside the canvas. -/
theorem c6_placement_invariant_witness :
    (180 ≤ 240 ∧ 140 ≤ 240)
    ∧ Placement.clampedOffset 120 180 + (180 : ℤ) ≤ 240
    ∧ Placement.clampedOffset 90 140 + (140 : ℤ) ≤ 240 :=
  ⟨⟨by decide, by decide⟩, (c6_placement_invariant 180 140 (by decide) (by decide)).2.2.1,
   (c6_placement_invariant 180 140 (by decide) (by decide)).2.2.2⟩

/-- C7: whenever the luma of the extracted fill colour and the luma of
the candidate contrast colour (luma scaled by 10000 here, exactly
`0.2126*R + 0.7152*G + 0.0722*B` times 10000) both exceed the light
threshold 150, the contrast refinement replaces the contrast colour with
the fixed dark neutral `'#333333'`, whose luma 51 is below the
threshold; otherwise the model-derived contrast colour is returned
unchanged. -/
theorem c7_light_contrast_override (fill cc : RGB) :
    (1500000 < luma10000 fill → 1500000 < luma10000 cc →
      Staging2.refineContrast fill cc = ⟨51, 51, 51⟩
      ∧ toHex ⟨51, 51, 51⟩ = "#333333"
      ∧ luma10000 (Staging2.refineContrast fill cc) < 1500000)
    ∧ (¬(1500000 < luma10000 fill ∧ 1500000 < luma10000 cc) →
      Staging2.refineContrast fill cc = cc) := by
  constructor
  · intro h1 h2
    unfold Staging2.refineContrast
    rw [if_pos ⟨h1, h2⟩]
    exact ⟨rfl, by decide, by decide⟩
  · intro hn
    unfold Staging2.refineContrast
    rw [if_neg hn]

/-- C7 witness: a white fill against a white candidate contrast colour
(both lumas 255, above 150) is overridden to the dark neutral. -/
theorem c7_light_contrast_override_witness :
    Staging2.refineContrast ⟨255, 255, 255⟩ ⟨255, 255, 255⟩ = ⟨51, 51, 51⟩
    ∧ luma10000 (Staging2.refineContrast ⟨255, 255, 255⟩ ⟨255, 255, 255⟩) < 1500000 := by
  have h := (c7_light_contrast_override ⟨255, 255, 255⟩ ⟨255, 255, 255⟩).1
    (by decide) (by decide)
  exact ⟨h.1, h.2.2⟩

namespace Batch

/-! Embedding of the batch loop `processAllLogos` of
`src/png_to_svg_staging/png_to_svg.js` (second revision): a `for` loop
over the matching files, each iteration wrapped in `try`/`catch`, with
the audit HTML and the configuration JSON written only after the loop.
A conversion is abstracted as a function into `Except`, the `.error`
case standing for a thrown exception. -/

/-- Console output events of the loop: the `Processing <file>... `
write, the success line, and the catch branch's error line. -/
inductive LogEvent where
  | processing (file : String)
  | success (methodText : String)
  | failure (msg : String)
deriving DecidableEq, Repr

/-- The value produced by a successful `convertLogo` call. -/
structure ConvResult where
  hexColor : String
  methodText : String
  contrastColor : String
deriving DecidableEq, Repr

/-- The mutable state of the batch loop: console log, accumulated HTML
tiles, accumulated theme-configuration entries, files attempted. -/
structure BatchState where
  logs : List LogEvent
  tiles : List String
  catEntries : List (String × String)
  attempted : ℕ
deriving DecidableEq, Repr

/-- One iteration of the `for` loop: write the processing line, try the
conversion; on success append the config entry and the HTML tile and log
success; on a thrown error only log it (the `catch` branch) and carry
on. -/
def stepFile (convert : String → Except String ConvResult)
    (st : BatchState) (file : String) : BatchState :=
  let st1 : BatchState := { st with logs := st.logs ++ [.processing file] }
  match convert file with
  | .ok r =>
      { st1 with
        logs := st1.logs ++ [.success r.methodText],
        tiles := st1.tiles ++ [file],
        catEntries := st1.catEntries ++ [(file, r.contrastColor)],
        attempted := st1.attempted + 1 }
  | .error e =>
      { st1 with logs := st1.logs ++ [.failure e], attempted := st1.attempted + 1 }

/-- The full batch run: the loop, then the two writes. -/
structure BatchOutput where
  final : BatchState
  writes : List (String × String)
deriving DecidableEq, Repr

/-- `processAllLogos`: fold the loop body over the file list, then write
`audit.html` and `configuration.json`. -/
def processAllLogos (files : List String)
    (convert : String → Except String ConvResult) : BatchOutput :=
  let final := files.foldl (stepFile convert) ⟨[], [], [], 0⟩
  ⟨final, [("audit.html", "audit report"), ("configuration.json", "theme config")]⟩

/-- Each loop iteration attempts exactly one file. -/
theorem stepFile_attempted (convert : String → Except String ConvResult)
    (st : BatchState) (f : String) :
    (stepFile convert st f).attempted = st.attempted + 1 := by
  unfold stepFile
  cases convert f <;> simp

/-- Loop iterations only append to the log. -/
theorem stepFile_logs_mono (convert : String → Except String ConvResult)
    (st : BatchState) (f : String) (ev : LogEvent) (h : ev ∈ st.logs) :
    ev ∈ (stepFile convert st f).logs := by
  unfold stepFile
  cases convert f <;> simp [h]

/-- Every iteration logs the name of the file being attempted. -/
theorem stepFile_logs_processing (convert : String → Except String ConvResult)
    (st : BatchState) (f : String) :
    LogEvent.processing f ∈ (stepFile convert st f).logs := by
  unfold stepFile
  cases convert f <;> simp

/-- A failing iteration logs the caught error. -/
theorem stepFile_logs_failure (convert : String → Except String ConvResult)
    (st : BatchState) (f : String) (e : String) (h : convert f = .error e) :
    LogEvent.failure e ∈ (stepFile convert st f).logs := by
  unfold stepFile
  rw [h]
  simp

/-- Invariants of the whole loop, by induction over the file list. -/
theorem foldl_batch_spec (convert : String → Except String ConvResult)
    (files : List String) : ∀ st : BatchState,
    ((files.foldl (stepFile convert) st).attempted = st.attempted + files.length)
    ∧ (∀ ev ∈ st.logs, ev ∈ (files.foldl (stepFile convert) st).logs)
    ∧ (∀ f ∈ files,
        LogEvent.processing f ∈ (files.foldl (stepFile convert) st).logs
        ∧ ∀ e, convert f = Except.error e →
            LogEvent.failure e ∈ (files.foldl (stepFile convert) st).logs) := by
  induction files with
  | nil => intro st; simp
  | cons f t ih =>
    intro st
    simp only [List.foldl_cons, List.length_cons]
    obtain ⟨ha, hmono, hall⟩ := ih (stepFile convert st f)
    refine ⟨by rw [ha, stepFile_attempted]; omega, ?_, ?_⟩
    · intro ev hev
      exact hmono ev (stepFile_logs_mono convert st f ev hev)
    · intro g hg
      rcases List.mem_cons.mp hg with hgf | hgt
      · subst hgf
        exact ⟨hmono _ (stepFile_logs_processing convert st g),
          fun e he => hmono _ (stepFile_logs_failure convert st g e he)⟩
      · exact hall g hgt

end Batch

/-- C8: for every enumerated file list and every conversion behaviour
(including ones that throw), the batch attempts every file exactly once,
logs each attempted filename, logs any thrown error at the loop
boundary without propagating it, and always finishes by writing the
audit report and the theme-configuration document after the loop. -/
theorem c8_batch_error_isolation (files : List String)
    (convert : String → Except String Batch.ConvResult) :
    (Batch.processAllLogos files convert).final.attempted = files.length
    ∧ (Batch.processAllLogos files convert).writes =
        [("audit.html", "audit report"), ("configuration.json", "theme config")]
    ∧ ∀ f ∈ files,
        Batch.LogEvent.processing f ∈ (Batch.processAllLogos files convert).final.logs
        ∧ ∀ e, convert f = Except.error e →
            Batch.LogEvent.failure e ∈ (Batch.processAllLogos files convert).final.logs := by
  obtain ⟨ha, _, hall⟩ := Batch.foldl_batch_spec convert files ⟨[], [], [], 0⟩
  exact ⟨by simpa using ha, rfl, hall⟩

/-- C8 witness: a two-file batch whose first conversion throws still
attempts both files, logs the failure, and writes both reports. -/
theorem c8_batch_error_isolation_witness :
    (Batch.processAllLogos ["a.png", "b.png"]
      (fun f => if f = "a.png" then Except.error "boom"
        else Except.ok ⟨"#000000", "Box Drill-Down", "#333333"⟩)).final.attempted = 2
    ∧ Batch.LogEvent.failure "boom" ∈
        (Batch.processAllLogos ["a.png", "b.png"]
          (fun f => if f = "a.png" then Except.error "boom"
            else Except.ok ⟨"#000000", "Box Drill-Down", "#333333"⟩)).final.logs := by
  have h := c8_batch_error_isolation ["a.png", "b.png"]
    (fun f => if f = "a.png" then Except.error "boom"
      else Except.ok ⟨"#000000", "Box Drill-Down", "#333333"⟩)
  exact ⟨h.1, (h.2.2 "a.png" (by simp)).2 "boom" (by simp)⟩

namespace Tracer

/-! Embedding of the temporary-file handling of `traceBuffer` in
`src/test_logos/png_to_svg.js` and of the per-layer trace of
`convertToHighFidelity` in `src/png_to_svg.js`: a temporary PNG is
written for the external tracer, and the tracer callback first runs
`fs.unlinkSync(tempFile)` and only then resolves the promise, both when
tracing errored and when it returned SVG text. The file system is
modelled as the list of file names present in the logo directory. -/

/-- One external trace call for one mask layer: write the temp file,
then run the callback, which unlinks the temp file before resolving
either the empty string (tracer error) or the traced path data. -/
def traceLayer (fs : List String) (tmp : String)
    (outcome : Except String String) : List String × String :=
  let fsWritten := tmp :: fs
  let fsCleaned := fsWritten.erase tmp
  match outcome with
  | .error _ => (fsCleaned, "")
  | .ok svg => (fsCleaned, svg)

/-- One iteration of the layer loop, threading the file system and
appending the resolved layer result. -/
def traceStep (acc : List String × List String)
    (l : String × Except String String) : List String × List String :=
  ((traceLayer acc.1 l.1 l.2).1, acc.2 ++ [(traceLayer acc.1 l.1 l.2).2])

/-- A whole conversion: the sequence of per-layer trace calls, each with
its own fresh temp name and its own tracer outcome, threading the file
system and collecting the resolved layer results. -/
def runLayers (fs0 : List String)
    (layers : List (String × Except String String)) : List String × List String :=
  layers.foldl traceStep (fs0, [])

/-- One trace call leaves the file system exactly as it found it, and a
result is still resolved, whether the tracer succeeded or failed. -/
theorem traceLayer_fs (fs : List String) (tmp : String)
    (outcome : Except String String) :
    (traceLayer fs tmp outcome).1 = fs := by
  unfold traceLayer
  cases outcome <;> simp

/-- The layer fold keeps the file system intact and resolves one result
per layer, for any starting accumulator. -/
theorem runLayers_go (layers : List (String × Except String String)) :
    ∀ (fs0 : List String) (acc : List String),
    ((layers.foldl traceStep (fs0, acc)).1 = fs0)
    ∧ ((layers.foldl traceStep (fs0, acc)).2.length = acc.length + layers.length) := by
  induction layers with
  | nil => intro fs0 acc; simp
  | cons l t ih =>
    intro fs0 acc
    simp only [List.foldl_cons]
    have hstep : traceStep (fs0, acc) l = (fs0, acc ++ [(traceLayer fs0 l.1 l.2).2]) := by
      unfold traceStep
      rw [traceLayer_fs]
    rw [hstep]
    obtain ⟨h1, h2⟩ := ih fs0 (acc ++ [(traceLayer fs0 l.1 l.2).2])
    refine ⟨h1, ?_⟩
    rw [h2]
    simp only [List.length_append, List.length_cons, List.length_nil]
    omega

end Tracer

/-- C10: every temporary PNG handed to the external tracer is deleted
inside the tracer callback before the layer result is resolved (the
unlink is the first statement of the callback in both sources, ahead of
both the error and the success exits), so after a conversion's layer
loop completes the logo directory holds exactly the files it held
before, while a result was still resolved for every layer. -/
theorem c10_temp_file_cleanup (fs0 : List String)
    (layers : List (String × Except String String)) :
    (Tracer.runLayers fs0 layers).1 = fs0
    ∧ (Tracer.runLayers fs0 layers).2.length = layers.length := by
  obtain ⟨h1, h2⟩ := Tracer.runLayers_go layers fs0 []
  exact ⟨h1, by simpa using h2⟩

namespace TrimModel

/-! Modelled from the spec: the second trim of the double-trim cropper,
`sharp(maskRaw).trim({ threshold: 10, background: white })`, is a call
into the external sharp library; per the spec it treats Background cells
as trimmable white and crops the mask to the tight bounding box of the
cells that differ from the white background by more than the threshold
10. The mask is a list of rows of grayscale cell values (the mask buffer
holds 0 for Foreground and 255 for Background). -/

/-- Modelled from the spec: a cell counts as content when it differs
from the white background by more than the trim threshold 10. -/
def isContent (v : ℕ) : Bool := decide (10 < 255 - v)

/-- A row containing at least one content cell. -/
def rowHasContent (r : List ℕ) : Bool := r.any isContent

/-- Drop the leading all-background rows. -/
def trimTop (m : List (List ℕ)) : List (List ℕ) :=
  m.dropWhile (fun r => !rowHasContent r)

/-- Drop the all-background rows on both ends. -/
def trimRows (m : List (List ℕ)) : List (List ℕ) :=
  (trimTop ((trimTop m).reverse)).reverse

/-- Column `j` contains at least one content cell. -/
def colHasContent (m : List (List ℕ)) (j : ℕ) : Bool :=
  m.any (fun r => isContent (r.getD j 255))

/-- Index of the first column with content (width `w`). -/
def firstCol (m : List (List ℕ)) (w : ℕ) : ℕ :=
  (List.range w).findIdx (colHasContent m)

/-- Index of the last column with content (width `w`). -/
def lastCol (m : List (List ℕ)) (w : ℕ) : ℕ :=
  w - 1 - (List.range w).reverse.findIdx (colHasContent m)

/-- Crop every row to the content column span. -/
def trimCols (m : List (List ℕ)) (w : ℕ) : List (List ℕ) :=
  m.map (fun r => (r.drop (firstCol m w)).take (lastCol m w + 1 - firstCol m w))

/-- Modelled from the spec: crop a mask of width `w` to the tight
bounding box of its content cells, rows first, then columns. -/
def trimMask (m : List (List ℕ)) (w : ℕ) : List (List ℕ) :=
  trimCols (trimRows m) w

/-- Dropping leading background rows does nothing when the first row has
content. -/
theorem trimTop_of_headD (m : List (List ℕ))
    (h : rowHasContent (m.headD []) = true) : trimTop m = m := by
  cases m with
  | nil => simp [rowHasContent] at h
  | cons r t =>
    simp only [List.headD_cons] at h
    unfold trimTop
    rw [List.dropWhile_cons, h]
    simp

end TrimModel

/-- C9: the uniform-border trim used as the second trim (threshold 10
against a white background) is idempotent on already-tight masks: for
every rectangular mask whose first and last rows and first and last
columns each contain a Foreground cell (its bounding box is already
tight to the Foreground cells), the trim returns the very same mask, so
the bounding box is unchanged and nothing shrinks further. -/
theorem c9_trim_idempotent (m : List (List ℕ)) (w : ℕ) (hw : 0 < w)
    (hrect : ∀ r ∈ m, r.length = w)
    (hhead : TrimModel.rowHasContent (m.headD []) = true)
    (hlast : TrimModel.rowHasContent (m.getLastD []) = true)
    (hcol0 : TrimModel.colHasContent m 0 = true)
    (hcolw : TrimModel.colHasContent m (w - 1) = true) :
    TrimModel.trimMask m w = m := by
  have htop : TrimModel.trimTop m = m := TrimModel.trimTop_of_headD m hhead
  have hrevD : m.reverse.headD ([] : List ℕ) = m.getLastD [] := by
    rw [List.headD_eq_head?, List.head?_reverse, ← List.getLastD_eq_getLast?]
  have hrows : TrimModel.trimRows m = m := by
    unfold TrimModel.trimRows
    rw [htop, TrimModel.trimTop_of_headD m.reverse (by rw [hrevD]; exact hlast),
      List.reverse_reverse]
  obtain ⟨v, rfl⟩ : ∃ v, w = v + 1 := ⟨w - 1, by omega⟩
  simp only [Nat.add_sub_cancel] at hcolw
  have hfc : TrimModel.firstCol m (v + 1) = 0 := by
    unfold TrimModel.firstCol
    rw [List.range_succ_eq_map, List.findIdx_cons, hcol0]
    rfl
  have hlc : TrimModel.lastCol m (v + 1) = v := by
    unfold TrimModel.lastCol
    rw [List.range_succ, List.reverse_append, List.reverse_singleton,
      List.singleton_append, List.findIdx_cons, hcolw]
    rfl
  unfold TrimModel.trimMask
  rw [hrows]
  unfold TrimModel.trimCols
  rw [hfc, hlc]
  have hid : ∀ r ∈ m, (r.drop 0).take (v + 1 - 0) = r := by
    intro r hr
    rw [List.drop_zero, Nat.sub_zero, ← hrect r hr, List.take_length]
  exact (List.map_congr_left hid).trans (List.map_id' m)

/-- C9 witness: the 2x2 mask with Foreground cells on the diagonal is
tight in every direction and the second trim leaves it untouched. -/
theorem c9_trim_idempotent_witness :
    TrimModel.trimMask [[0, 255], [255, 0]] 2 = [[0, 255], [255, 0]] :=
  c9_trim_idempotent [[0, 255], [255, 0]] 2 (by decide) (by decide)
    (by decide) (by decide) (by decide) (by decide)

end MapIcons
